import Mathlib

/-!
Verification development for the intabular CSV-ingestion engine.

The first part embeds the shipped field-by-field processor
(`intabular/core/processor.py`, class `IntelligentProcessor`) over a
shallow model of pandas DataFrames: a cell is `Option String` (`none`
models `NaN`), a DataFrame is an explicit row count together with an
association list of named columns.  The second part embeds the strategy
builder's failure handling (`intabular/core/strategy.py`) and, for the
entity-matching/row-merge engine whose implementation is referenced by
the package (`DataframeIngestionProcessor` in `intabular/__init__.py`
and the tests) but absent from the available sources, a model built
from the specification's words.
-/

set_option autoImplicit false

namespace Intabular

/-- A cell of a table: `none` models a pandas `NaN`, `some s` a string value. -/
abbrev Cell := Option String

/-- First-match lookup in an association list (column access by name). -/
def lookupCol {α : Type} : List (String × α) → String → Option α
  | [], _ => none
  | p :: ps, c => if p.1 = c then some p.2 else lookupCol ps c

/-- Shallow model of a pandas `DataFrame`: an explicit row count (the length
of the index) and named columns.  The row count is kept separately because a
DataFrame can have rows but no columns. -/
structure DataFrame where
  nrows : Nat
  cols : List (String × List Cell)
deriving DecidableEq, Inhabited

/-- The column names of the frame, in order (`df.columns`). -/
def DataFrame.colNames (df : DataFrame) : List String := df.cols.map Prod.fst

/-- `df[c]` as an optional column (`none` when the column is absent). -/
def DataFrame.getCol (df : DataFrame) (c : String) : Option (List Cell) := lookupCol df.cols c

/-- `df[c].iloc[i]`; absent column or out-of-range row reads as `NaN`. -/
def DataFrame.getCell (df : DataFrame) (c : String) (i : Nat) : Cell :=
  match df.getCol c with
  | none => none
  | some vs =>
    match vs[i]? with
    | none => none
    | some x => x

/-- Overwrite the first `vs.length` entries of a column, keeping the tail:
the effect of `df.loc[:len(vs)-1, c] = vs`. -/
def writeFront (vs old : List Cell) : List Cell := vs ++ old.drop vs.length

/-- `df.loc[:len(vs)-1, c] = vs`: writes the front of column `c`; pandas
creates the column (padding unassigned rows with `NaN`) when it is absent. -/
def DataFrame.setCol (df : DataFrame) (c : String) (vs : List Cell) : DataFrame :=
  if c ∈ df.colNames then
    { df with cols := df.cols.map fun p => (p.1, if p.1 = c then writeFront vs p.2 else p.2) }
  else
    { df with cols := df.cols ++ [(c, vs ++ List.replicate (df.nrows - vs.length) none)] }

/-- Whether the first list is an initial segment of the second. -/
def frontMatches : List Char → List Char → Bool
  | [], _ => true
  | _ :: _, [] => false
  | a :: as, b :: bs => a == b && frontMatches as bs

/-- Whether `needle` occurs contiguously inside the second list. -/
def infixOfList (needle : List Char) : List Char → Bool
  | [] => needle.isEmpty
  | b :: bs => frontMatches needle (b :: bs) || infixOfList needle bs

/-- `needle in hay` on Python strings (substring containment). -/
def substrIn (needle hay : String) : Bool := infixOfList needle.toList hay.toList

/-- Python `str.strip()` on the character list: drop whitespace at both ends. -/
def stripChars (l : List Char) : List Char :=
  ((l.dropWhile Char.isWhitespace).reverse.dropWhile Char.isWhitespace).reverse

/-- Python `str.strip()`. -/
def pyStrip (s : String) : String := String.mk (stripChars s.toList)

/-- Python `str.lower()` for ASCII strings. -/
def pyLower (s : String) : String := String.mk (s.toList.map Char.toLower)

/-- Python `str.upper()` for ASCII strings. -/
def pyUpper (s : String) : String := String.mk (s.toList.map Char.toUpper)

/-- Python `str.split(ch)` on the character list. -/
def splitOnChar (ch : Char) : List Char → List (List Char)
  | [] => [[]]
  | a :: as =>
    match splitOnChar ch as with
    | [] => [[]]
    | g :: gs => if a = ch then [] :: g :: gs else (a :: g) :: gs

/-- Helper for `titleCase`: the Boolean records whether the previous
character was cased, as in CPython's `str.title` (ASCII letters). -/
def titleCaseAux : Bool → List Char → List Char
  | _, [] => []
  | prevCased, ch :: rest =>
    if ch.isAlpha then
      (if prevCased then ch.toLower else ch.toUpper) :: titleCaseAux true rest
    else
      ch :: titleCaseAux false rest

/-- Python `str.title()` for ASCII strings. -/
def titleCase (s : String) : String := String.mk (titleCaseAux false s.toList)

/-- The `phone_format` branch of the transform strategy: keep the digits and
render `(xxx) xxx-xxxx` when exactly ten remain, else return the input. -/
def phoneFmt (s : String) : String :=
  let digits := s.toList.filter Char.isDigit
  if digits.length = 10 then
    "(" ++ String.mk (digits.take 3) ++ ") " ++ String.mk ((digits.drop 3).take 3)
      ++ "-" ++ String.mk (digits.drop 6)
  else s

/-- One cell of `IntelligentProcessor._apply_transform_strategy`: `NaN` maps
to the empty string; otherwise the rule text selects, by substring match and
in the source's order, one of the whitelisted string transformations of the
stripped value, defaulting to the stripped value itself. -/
def transformValue (rule : String) (val : Cell) : String :=
  match val with
  | none => ""
  | some v =>
    let s := pyStrip v
    let r := pyLower rule
    if substrIn "title_case" r then titleCase s
    else if substrIn "upper" r then pyUpper s
    else if substrIn "lower" r then pyLower s
    else if substrIn "phone_format" r then phoneFmt s
    else s

/-- A field strategy entry of the LLM-produced strategy JSON
(`field_strategies[target_col]`), with the keys the processor and the
builder read.  The numeric `confidence` is modelled as a rational. -/
structure FieldStrategy where
  strategy : String
  source_mapping : List String
  confidence : ℚ
  reasoning : String
  transformation_rule : String
  prompt_template : String
  fallback_strategy : String
deriving DecidableEq, Inhabited

/-- `IntelligentProcessor._apply_replace_strategy`: copy the first
`min(len(target), len(source))` values of the mapped source column into the
target column; missing mapping or missing source column is a no-op. -/
def apply_replace_strategy (target source : DataFrame) (tcol : String)
    (srcMap : List String) : DataFrame :=
  match srcMap with
  | [] => target
  | scol :: _ =>
    match source.getCol scol with
    | none => target
    | some vs =>
      let m := min target.nrows source.nrows
      target.setCol tcol (vs.take m)

/-- One row of `IntelligentProcessor._apply_concat_strategy`: join the
non-blank stripped values of the mapped source columns with the separator. -/
def concatRow (source : DataFrame) (srcMap : List String) (sep : String) (idx : Nat) : String :=
  let vals := srcMap.filterMap fun c =>
    match source.getCell c idx with
    | none => none
    | some v => if pyStrip v = "" then none else some (pyStrip v)
  String.intercalate sep vals

/-- `IntelligentProcessor._apply_concat_strategy`. -/
def apply_concat_strategy (target source : DataFrame) (tcol : String)
    (srcMap : List String) (rule : String) : DataFrame :=
  if srcMap.isEmpty then target
  else if srcMap.all fun c => source.colNames.contains c then
    let sep := if substrIn "comma" (pyLower rule) then ", " else " "
    let m := min target.nrows source.nrows
    target.setCol tcol ((List.range m).map fun i => some (concatRow source srcMap sep i))
  else target

/-- One row of `IntelligentProcessor._apply_prompt_merge_strategy`: gather
the non-blank source fields, and when any are present send the filled
template to the LLM (modelled as an oracle `llm : String → String`) and
strip the answer. -/
def promptMergeRow (llm : String → String) (source : DataFrame) (srcMap : List String)
    (tmpl : String) (idx : Nat) : String :=
  let rowData := srcMap.filterMap fun c =>
    match source.getCell c idx with
    | none => none
    | some v => if pyStrip v = "" then none else some (c, pyStrip v)
  if rowData.isEmpty then ""
  else
    let ctx := String.intercalate ", " (rowData.map fun kv => kv.1 ++ ": " ++ kv.2)
    pyStrip (llm (tmpl.replace "{data}" ctx))

/-- `IntelligentProcessor._apply_prompt_merge_strategy` (the per-row
`except` fallback cannot fire in this total model). -/
def apply_prompt_merge_strategy (llm : String → String) (target source : DataFrame)
    (tcol : String) (srcMap : List String) (tmpl : String) : DataFrame :=
  if srcMap.isEmpty then target
  else if srcMap.all fun c => source.colNames.contains c then
    let t := if tmpl = "" then
        "Intelligently combine the following data into a meaningful " ++ tcol ++ ": {data}"
      else tmpl
    let m := min target.nrows source.nrows
    target.setCol tcol ((List.range m).map fun i => some (promptMergeRow llm source srcMap t i))
  else target

/-- CPython `repr` of a string, for strings without quotes or backslashes
(the form interpolated by `f"Derived from {source_mapping}"`). -/
def pyStrRepr (s : String) : String := "\x27" ++ s ++ "\x27"

/-- CPython `repr` of a list of such strings. -/
def pyListRepr (l : List String) : String :=
  "[" ++ String.intercalate ", " (l.map pyStrRepr) ++ "]"

/-- One row of `IntelligentProcessor._apply_derive_strategy`: the
`email_domain` rule extracts the part after the last `@` of the first mapped
column's value, anything else produces the fixed generic string. -/
def deriveValue (source : DataFrame) (srcMap : List String) (rule : String) (idx : Nat) : String :=
  if substrIn "email_domain" (pyLower rule) then
    match srcMap with
    | [] => ""
    | scol :: _ =>
      if source.colNames.contains scol then
        match source.getCell scol idx with
        | none => ""
        | some v =>
          if v.toList.contains '@' then
            String.mk ((splitOnChar '@' v.toList).getLastD [])
          else ""
      else ""
  else
    "Derived from " ++ pyListRepr srcMap

/-- `IntelligentProcessor._apply_derive_strategy`. -/
def apply_derive_strategy (target source : DataFrame) (tcol : String)
    (srcMap : List String) (rule : String) : DataFrame :=
  if rule = "" then target
  else
    let m := min target.nrows source.nrows
    target.setCol tcol ((List.range m).map fun i => some (deriveValue source srcMap rule i))

/-- `IntelligentProcessor._apply_transform_strategy`. -/
def apply_transform_strategy (target source : DataFrame) (tcol : String)
    (srcMap : List String) (rule : String) : DataFrame :=
  match srcMap with
  | [] => target
  | scol :: _ =>
    match source.getCol scol with
    | none => target
    | some vs =>
      let m := min target.nrows source.nrows
      target.setCol tcol ((vs.take m).map fun v => some (transformValue rule v))

/-- `IntelligentProcessor._apply_field_strategy`: dispatch on the strategy
name; `preserve` and any unknown name leave the target untouched. -/
def apply_field_strategy (llm : String → String) (target source : DataFrame)
    (tcol : String) (fs : FieldStrategy) : DataFrame :=
  if fs.strategy = "replace" then
    apply_replace_strategy target source tcol fs.source_mapping
  else if fs.strategy = "concat" then
    apply_concat_strategy target source tcol fs.source_mapping fs.transformation_rule
  else if fs.strategy = "prompt_merge" then
    apply_prompt_merge_strategy llm target source tcol fs.source_mapping fs.prompt_template
  else if fs.strategy = "derive" then
    apply_derive_strategy target source tcol fs.source_mapping fs.transformation_rule
  else if fs.strategy = "transform" then
    apply_transform_strategy target source tcol fs.source_mapping fs.transformation_rule
  else if fs.strategy = "preserve" then
    target
  else
    target

/-- The `deduplication` entry of the strategy's `data_quality_rules`
(`strategy` defaults to `"email_based"` on the read, `key_fields` to `[]`). -/
structure DedupRule where
  strategy : String
  key_fields : List String
deriving DecidableEq, Inhabited

/-- The `data_quality_rules` dictionary as the processor reads it: a
`trim_whitespace` cleanup flag, an optional `deduplication` entry and the
`email_validation` flag (which only logs warnings). -/
structure QualityRules where
  trim_whitespace : Bool
  deduplication : Option DedupRule
  email_validation : Bool
deriving DecidableEq, Inhabited

/-- One cell of the `trim_whitespace` cleanup: `astype(str).str.strip()`
renders a `NaN` as the literal string `"nan"` and strips real values. -/
def trimCell (x : Cell) : Cell :=
  match x with
  | none => some "nan"
  | some v => some (pyStrip v)

/-- The `trim_whitespace` cleanup applied to every (string) column. -/
def applyTrim (df : DataFrame) : DataFrame :=
  { df with cols := df.cols.map fun p => (p.1, p.2.map trimCell) }

/-- The value tuple of row `i` restricted to the `subset` key columns,
as compared by `drop_duplicates` (pandas treats two `NaN`s as equal). -/
def dedupKey (df : DataFrame) (subset : List String) (i : Nat) : List Cell :=
  subset.map fun c => df.getCell c i

/-- Whether `drop_duplicates(subset, keep='first')` keeps row `i`: no
earlier row has the same key tuple. -/
def keepRow (df : DataFrame) (subset : List String) (i : Nat) : Bool :=
  !((List.range i).any fun j => dedupKey df subset j = dedupKey df subset i)

/-- `df.drop_duplicates(subset=subset, keep='first')`. -/
def dropDuplicates (df : DataFrame) (subset : List String) : DataFrame :=
  let kept := (List.range df.nrows).filter fun i => keepRow df subset i
  { nrows := kept.length,
    cols := df.cols.map fun p => (p.1, kept.map fun i => (p.2[i]?).getD none) }

/-- The columns whose lowercased name contains `email`. -/
def emailColumns (df : DataFrame) : List String :=
  df.colNames.filter fun c => substrIn "email" (pyLower c)

/-- The deduplication step of `IntelligentProcessor._apply_data_quality_rules`:
`email_based` deduplicates on the first email-named column when one exists;
otherwise a non-empty `key_fields` list, all present, is used as the key. -/
def applyDedup (df : DataFrame) (dr : DedupRule) : DataFrame :=
  if dr.strategy = "email_based" ∧ emailColumns df ≠ [] then
    dropDuplicates df [(emailColumns df).headD ""]
  else if dr.key_fields ≠ [] ∧ ∀ c ∈ dr.key_fields, c ∈ df.colNames then
    dropDuplicates df dr.key_fields
  else df

/-- `IntelligentProcessor._apply_data_quality_rules`: trim, then
deduplicate; the validation step only logs invalid-email warnings and
leaves the frame unchanged. -/
def apply_data_quality_rules (df : DataFrame) (q : QualityRules) : DataFrame :=
  let df1 := if q.trim_whitespace then applyTrim df else df
  match q.deduplication with
  | none => df1
  | some dr => applyDedup df1 dr

/-- The empty target structure `pd.DataFrame(columns=target_columns)`. -/
def emptyFrame (schemaCols : List String) : DataFrame :=
  { nrows := 0, cols := schemaCols.map fun c => (c, []) }

/-- `pd.DataFrame(index=range(n), columns=schemaCols).fillna('')`. -/
def filledFrame (schemaCols : List String) (n : Nat) : DataFrame :=
  { nrows := n, cols := schemaCols.map fun c => (c, List.replicate n (some "")) }

/-- The row count of the loaded target table (`0` when the target file does
not exist). -/
def targetRowCount (targetDf : Option DataFrame) : Nat :=
  match targetDf with
  | none => 0
  | some df => df.nrows

/-- The target-loading step of `execute_ingestion`: an absent target file
becomes the empty schema frame. -/
def load_target (targetDf : Option DataFrame) (schemaCols : List String) : DataFrame :=
  match targetDf with
  | some df => df
  | none => emptyFrame schemaCols

/-- The cold-start step of `execute_ingestion`: an empty target becomes one
blank row per source row over the schema columns. -/
def init_result (target0 : DataFrame) (schemaCols : List String) (sourceRows : Nat) :
    DataFrame :=
  if target0.nrows = 0 then filledFrame schemaCols sourceRows else target0

/-- The strategy loop of `execute_ingestion`: fold every field strategy over
the working frame (per-field exceptions cannot fire in this total model). -/
def run_field_strategies (llm : String → String) (sourceDf : DataFrame)
    (fieldStrategies : List (String × FieldStrategy)) (init : DataFrame) : DataFrame :=
  fieldStrategies.foldl (fun acc p => apply_field_strategy llm acc sourceDf p.1 p.2) init

/-- The final step of `execute_ingestion`: apply the data quality rules when
any are present. -/
def run_quality (qualityRules : Option QualityRules) (df : DataFrame) : DataFrame :=
  match qualityRules with
  | none => df
  | some q => apply_data_quality_rules df q

/-- `IntelligentProcessor.execute_ingestion`: load the target, cold-start an
empty target, fold the field strategies, then apply the quality rules. -/
def execute_ingestion (llm : String → String) (targetDf : Option DataFrame)
    (sourceDf : DataFrame) (schemaCols : List String)
    (fieldStrategies : List (String × FieldStrategy))
    (qualityRules : Option QualityRules) : DataFrame :=
  run_quality qualityRules
    (run_field_strategies llm sourceDf fieldStrategies
      (init_result (load_target targetDf schemaCols) schemaCols sourceDf.nrows))

/-- `IngestionStrategy._get_fallback_field_strategy`: the strategy silently
substituted for a target column whose mapping call failed. -/
def get_fallback_field_strategy (tcol : String) : FieldStrategy :=
  { strategy := "preserve"
    source_mapping := []
    confidence := 1 / 10
    reasoning := "Strategy creation failed for " ++ tcol ++ ", defaulting to preserve"
    transformation_rule := ""
    prompt_template := ""
    fallback_strategy := "preserve" }

/-- `IngestionStrategy._create_field_mappings_parallel`: each target
column's mapping call (`attempt`, which may fail) is tried, and a failure is
caught and replaced by the fallback strategy — the builder itself never
fails. -/
def create_field_mappings (attempt : String → Except String FieldStrategy)
    (targetColumns : List String) : List (String × FieldStrategy) :=
  targetColumns.map fun tcol =>
    (tcol,
      match attempt tcol with
      | Except.ok fs => fs
      | Except.error _ => get_fallback_field_strategy tcol)

/-!
The entity-matching and row-merge engine.  Its implementation
(`DataframeIngestionProcessor`) is imported by `intabular/__init__.py` and
exercised by the repository's tests, but the module itself is not among the
available sources; the definitions below are therefore built from the
specification.
-/

/-- Modelled from the spec: a `ColumnSpec` of the Schema Model — a column
name, the `is_entity_identifier` flag, and the `identity_indication` weight
in `[0,1]` (the source's float weight idealized as a rational). -/
structure SchemaColumn where
  name : String
  is_entity_identifier : Bool
  identity_indication : ℚ
deriving DecidableEq, Inhabited

/-- A row keyed by target-column name, holding transformed string values. -/
abbrev ERow := List (String × String)

/-- Modelled from the spec: the contribution of one column to a target
row's match score — `identity_indication` when the transformed source value
is present, non-empty and equal to the target row's value, else `0`
(an empty or absent transformed value contributes `0`, the resolution the
spec adopts for its open question). -/
def scoreContrib (col : SchemaColumn) (src tgt : ERow) : ℚ :=
  match lookupCol src col.name with
  | none => 0
  | some v =>
    if v = "" then 0
    else
      match lookupCol tgt col.name with
      | none => 0
      | some w => if v = w then col.identity_indication else 0

/-- Modelled from the spec: the match score of a target row — the sum of
the entity columns' contributions. -/
def matchScore (schema : List SchemaColumn) (src tgt : ERow) : ℚ :=
  (schema.map fun col =>
    if col.is_entity_identifier then scoreContrib col src tgt else 0).sum

/-- Modelled from the spec: the Entity Matcher's selection — the first
(lowest-index) target row attaining the maximum match score, with its
score; `none` on an empty target table. -/
def bestMatch (schema : List SchemaColumn) (src : ERow) : List ERow → Option (Nat × ℚ)
  | [] => none
  | r :: rs =>
    let s := matchScore schema src r
    match bestMatch schema src rs with
    | none => some (0, s)
    | some (j, b) => if s < b then some (j + 1, b) else some (0, s)

/-- Modelled from the spec: the fixed match-acceptance threshold, kept as a
named constant. -/
def matchThreshold : ℚ := 1

/-- Modelled from the spec: the Row Merger's merge path applied to one
target row — entity columns are filled only when currently empty and never
overwritten; descriptive columns are replaced by the merge rule
(`descMerge name current new`) when a transformed source value exists. -/
def mergeRowModel (schema : List SchemaColumn) (descMerge : String → String → String → String)
    (src : ERow) (tgt : ERow) : ERow :=
  tgt.map fun p =>
    match (schema.filter fun col => col.name = p.1).head? with
    | none => p
    | some col =>
      if col.is_entity_identifier then
        (p.1, if p.2 = "" then (lookupCol src p.1).getD "" else p.2)
      else
        match lookupCol src p.1 with
        | none => p
        | some v => (p.1, descMerge p.1 p.2 v)

/-- Modelled from the spec: the Row Merger's append path — entity columns
take the transformed source value directly, descriptive columns evaluate
their merge rule with `current` empty, uncovered columns become empty. -/
def newEntityRow (schema : List SchemaColumn) (descMerge : String → String → String → String)
    (src : ERow) : ERow :=
  schema.map fun col =>
    (col.name,
      if col.is_entity_identifier then (lookupCol src col.name).getD ""
      else
        match lookupCol src col.name with
        | none => ""
        | some v => descMerge col.name "" v)

/-- Replace the element at the given index, when it exists. -/
def updateAt {α : Type} (f : α → α) : Nat → List α → List α
  | _, [] => []
  | 0, x :: xs => f x :: xs
  | n + 1, x :: xs => x :: updateAt f n xs

/-- Modelled from the spec: ingestion of one source row — merge into the
best-matching target row when its score reaches the threshold, otherwise
append a new entity row. -/
def ingestRow (schema : List SchemaColumn) (descMerge : String → String → String → String)
    (src : ERow) (rows : List ERow) : List ERow :=
  match bestMatch schema src rows with
  | none => rows ++ [newEntityRow schema descMerge src]
  | some (i, s) =>
    if matchThreshold ≤ s then
      updateAt (mergeRowModel schema descMerge src) i rows
    else
      rows ++ [newEntityRow schema descMerge src]

/-- `df` with only its first `n` rows: every column truncated to length `n`
and the row count capped, as produced by restricting a frame to an index
range. -/
def truncRows (n : Nat) (df : DataFrame) : DataFrame :=
  { nrows := min df.nrows n, cols := df.cols.map fun p => (p.1, p.2.take n) }

/-- Modelled from the spec: whether an entity column scores on a target
row — the transformed source value is present, non-empty, and equal to the
target row's value for that column. -/
def entityHit (col : SchemaColumn) (src tgt : ERow) : Bool :=
  match lookupCol src col.name with
  | none => false
  | some v =>
    if v = "" then false
    else if lookupCol tgt col.name = some v then true else false

/-- An identity LLM oracle for concrete runs (never actually consulted by
the strategies used with it below). -/
def idOracle : String → String := fun s => s

/-- A target table holding two rows with the same email. -/
def tgtDupEmail : DataFrame := ⟨2, [("email", [some "a@x.com", some "a@x.com"])]⟩

/-- A source table with no rows. -/
def srcEmptyRows : DataFrame := ⟨0, [("email", [])]⟩

/-- A source table with two identical email rows. -/
def srcDupEmail : DataFrame := ⟨2, [("email", [some "a@x.com", some "a@x.com"])]⟩

/-- Quality rules carrying only an email-based deduplication entry. -/
def dedupEmailRules : QualityRules :=
  { trim_whitespace := false
    deduplication := some { strategy := "email_based", key_fields := [] }
    email_validation := false }

/-- A plain replace strategy from source column `email`. -/
def replaceEmailStrategy : FieldStrategy :=
  { strategy := "replace"
    source_mapping := ["email"]
    confidence := 9 / 10
    reasoning := "direct email mapping"
    transformation_rule := ""
    prompt_template := ""
    fallback_strategy := "preserve" }

/-- The spec's weighted-threshold example schema: two entity columns with
identity indications 0.6 and 0.5. -/
def schemaWeighted : List SchemaColumn :=
  [{ name := "a", is_entity_identifier := true, identity_indication := 3 / 5 },
   { name := "b", is_entity_identifier := true, identity_indication := 1 / 2 }]

/-- A simple concatenating merge rule for descriptive columns. -/
def concatMergeRule : String → String → String → String :=
  fun _ cur new => if cur = "" then new else cur ++ "; " ++ new

/-- A field strategy with a strategy name outside the known set. -/
def bananaStrategy : FieldStrategy :=
  { strategy := "banana"
    source_mapping := ["email"]
    confidence := 1 / 2
    reasoning := ""
    transformation_rule := ""
    prompt_template := ""
    fallback_strategy := "preserve" }

/-- A two-row, two-column target frame. -/
def tgtTwoCols : DataFrame :=
  ⟨2, [("email", [some "a@x.com", some "b@y.com"]), ("notes", [some "n1", some "n2"])]⟩

/-- A one-row source frame. -/
def srcOneRow : DataFrame := ⟨1, [("email", [some "z@q.com"])]⟩

section Lemmas

variable {α β : Type}

lemma lookupCol_map_keyed (g : String → α → β) (l : List (String × α)) (c : String) :
    lookupCol (l.map fun p => (p.1, g p.1 p.2)) c = (lookupCol l c).map (g c) := by
  induction l with
  | nil => rfl
  | cons p ps ih =>
    by_cases h : p.1 = c
    · simp [lookupCol, h]
    · simp [lookupCol, h, ih]

lemma map_fst_keyed (g : String → α → β) (l : List (String × α)) :
    (l.map fun p => (p.1, g p.1 p.2)).map Prod.fst = l.map Prod.fst := by
  induction l with
  | nil => rfl
  | cons p ps ih => simp [ih]

lemma lookupCol_append (l₁ l₂ : List (String × α)) (c : String) :
    lookupCol (l₁ ++ l₂) c =
      match lookupCol l₁ c with
      | some v => some v
      | none => lookupCol l₂ c := by
  induction l₁ with
  | nil => rfl
  | cons p ps ih =>
    by_cases h : p.1 = c
    · simp [lookupCol, h]
    · simp [lookupCol, h, ih]

lemma lookupCol_eq_none (l : List (String × α)) (c : String) (h : c ∉ l.map Prod.fst) :
    lookupCol l c = none := by
  induction l with
  | nil => rfl
  | cons p ps ih =>
    simp only [List.map_cons, List.mem_cons] at h
    push_neg at h
    show (if p.1 = c then some p.2 else lookupCol ps c) = none
    rw [if_neg fun hpc => h.1 hpc.symm]
    exact ih h.2

lemma lookupCol_exists_of_mem (l : List (String × α)) (c : String) (h : c ∈ l.map Prod.fst) :
    ∃ v, lookupCol l c = some v := by
  induction l with
  | nil => simp at h
  | cons p ps ih =>
    by_cases hpc : p.1 = c
    · exact ⟨p.2, by simp [lookupCol, hpc]⟩
    · simp only [List.map_cons, List.mem_cons] at h
      rcases h with h | h
      · exact absurd h.symm hpc
      · rcases ih h with ⟨v, hv⟩
        exact ⟨v, by simp [lookupCol, hpc, hv]⟩

lemma nrows_setCol (df : DataFrame) (c : String) (vs : List Cell) :
    (df.setCol c vs).nrows = df.nrows := by
  unfold DataFrame.setCol
  split <;> rfl

lemma colNames_setCol (df : DataFrame) (c : String) (vs : List Cell) :
    (df.setCol c vs).colNames =
      if c ∈ df.colNames then df.colNames else df.colNames ++ [c] := by
  unfold DataFrame.setCol DataFrame.colNames
  split
  · simp only [if_pos ‹c ∈ df.colNames›]
    exact map_fst_keyed (fun k old => if k = c then writeFront vs old else old) df.cols
  · simp [if_neg ‹¬ c ∈ df.colNames›]

lemma colNames_setCol_of_mem (df : DataFrame) (c : String) (vs : List Cell)
    (h : c ∈ df.colNames) : (df.setCol c vs).colNames = df.colNames := by
  rw [colNames_setCol, if_pos h]

lemma mem_colNames_setCol (df : DataFrame) (c : String) (vs : List Cell) :
    c ∈ (df.setCol c vs).colNames := by
  rw [colNames_setCol]
  split
  · assumption
  · simp

lemma getCol_setCol_ne (df : DataFrame) (c c' : String) (vs : List Cell) (h : c' ≠ c) :
    (df.setCol c vs).getCol c' = df.getCol c' := by
  unfold DataFrame.setCol DataFrame.getCol
  split
  · rw [lookupCol_map_keyed (fun k old => if k = c then writeFront vs old else old) df.cols c']
    cases hl : lookupCol df.cols c' <;> simp [h]
  · rw [lookupCol_append]
    cases hl : lookupCol df.cols c' with
    | none =>
      simp only [hl, lookupCol]
      rw [if_neg fun hc : c = c' => h hc.symm]
    | some v => simp [hl]

lemma getCol_setCol_of_some (df : DataFrame) (c : String) (vs old : List Cell)
    (h : df.getCol c = some old) :
    (df.setCol c vs).getCol c = some (writeFront vs old) := by
  have hmem : c ∈ df.colNames := by
    by_contra hmem
    rw [show df.getCol c = lookupCol df.cols c from rfl, lookupCol_eq_none df.cols c hmem] at h
    exact Option.noConfusion h
  unfold DataFrame.setCol DataFrame.getCol
  rw [if_pos hmem]
  simp only
  rw [lookupCol_map_keyed (fun k old => if k = c then writeFront vs old else old) df.cols c]
  rw [show lookupCol df.cols c = some old from h]
  simp

lemma getCol_setCol_of_none (df : DataFrame) (c : String) (vs : List Cell)
    (h : df.getCol c = none) :
    (df.setCol c vs).getCol c =
      some (vs ++ List.replicate (df.nrows - vs.length) none) := by
  have hmem : c ∉ df.colNames := by
    intro hmem
    rcases lookupCol_exists_of_mem df.cols c hmem with ⟨v, hv⟩
    rw [show df.getCol c = lookupCol df.cols c from rfl, hv] at h
    exact Option.noConfusion h
  unfold DataFrame.setCol DataFrame.getCol
  rw [if_neg hmem]
  simp only
  rw [lookupCol_append]
  rw [show lookupCol df.cols c = none from h]
  simp [lookupCol]

lemma writeFront_getElem_ge (vs old : List Cell) (i : Nat) (h : vs.length ≤ i) :
    (writeFront vs old)[i]? = old[i]? := by
  unfold writeFront
  rw [List.getElem?_append_right h, List.getElem?_drop]
  congr 1
  omega

lemma getCell_setCol_ge (df : DataFrame) (c : String) (vs : List Cell) (i : Nat)
    (h : vs.length ≤ i) : (df.setCol c vs).getCell c i = df.getCell c i := by
  unfold DataFrame.getCell
  cases hl : df.getCol c with
  | some old =>
    simp only [getCol_setCol_of_some df c vs old hl, hl]
    rw [writeFront_getElem_ge vs old i h]
  | none =>
    simp only [getCol_setCol_of_none df c vs hl, hl]
    rw [List.getElem?_append_right h]
    cases hrep : (List.replicate (df.nrows - vs.length) (none : Cell))[i - vs.length]? with
    | none => rfl
    | some x =>
      have hx := List.getElem?_mem hrep
      rw [List.eq_of_mem_replicate hx]

lemma getCell_setCol_ne (df : DataFrame) (c c' : String) (vs : List Cell) (i : Nat)
    (h : c' ≠ c) : (df.setCol c vs).getCell c' i = df.getCell c' i := by
  unfold DataFrame.getCell
  rw [getCol_setCol_ne df c c' vs h]

lemma writeFront_writeFront (vs old : List Cell) :
    writeFront vs (writeFront vs old) = writeFront vs old := by
  unfold writeFront
  rw [List.drop_left]

lemma dataFrame_ext (a b : DataFrame) (h1 : a.nrows = b.nrows) (h2 : a.cols = b.cols) :
    a = b := by
  cases a
  cases b
  cases h1
  cases h2
  rfl

lemma cols_setCol_of_mem (df : DataFrame) (c : String) (vs : List Cell)
    (h : c ∈ df.colNames) :
    (df.setCol c vs).cols =
      df.cols.map fun p => (p.1, if p.1 = c then writeFront vs p.2 else p.2) := by
  unfold DataFrame.setCol
  rw [if_pos h]

lemma cols_setCol_of_not_mem (df : DataFrame) (c : String) (vs : List Cell)
    (h : c ∉ df.colNames) :
    (df.setCol c vs).cols =
      df.cols ++ [(c, vs ++ List.replicate (df.nrows - vs.length) none)] := by
  unfold DataFrame.setCol
  rw [if_neg h]

lemma setCol_setCol (df : DataFrame) (c : String) (vs : List Cell) :
    (df.setCol c vs).setCol c vs = df.setCol c vs := by
  apply dataFrame_ext
  · rw [nrows_setCol, nrows_setCol]
  · by_cases hmem : c ∈ df.colNames
    · have hmem1 : c ∈ (df.setCol c vs).colNames := mem_colNames_setCol df c vs
      rw [cols_setCol_of_mem _ c vs hmem1, cols_setCol_of_mem df c vs hmem, List.map_map]
      refine List.map_congr_left fun p _ => ?_
      by_cases hp : p.1 = c
      · simp [Function.comp, hp, writeFront_writeFront]
      · simp [Function.comp, hp]
    · have hmem1 : c ∈ (df.setCol c vs).colNames := mem_colNames_setCol df c vs
      rw [cols_setCol_of_mem _ c vs hmem1, cols_setCol_of_not_mem df c vs hmem,
        List.map_append]
      have hne : ∀ p ∈ df.cols, p.1 ≠ c := by
        intro p hp hpc
        exact hmem (hpc ▸ List.mem_map_of_mem Prod.fst hp)
      have hbase : (df.cols.map fun p => (p.1, if p.1 = c then writeFront vs p.2 else p.2))
          = df.cols := by
        calc (df.cols.map fun p => (p.1, if p.1 = c then writeFront vs p.2 else p.2))
            = df.cols.map id := List.map_congr_left fun p hp => by
              simp [if_neg (hne p hp)]
          _ = df.cols := List.map_id df.cols
      rw [hbase]
      have hw : writeFront vs (vs ++ List.replicate (df.nrows - vs.length) none)
          = vs ++ List.replicate (df.nrows - vs.length) none := by
        unfold writeFront
        rw [List.drop_left]
      simp [hw]

lemma apply_replace_cases (t s : DataFrame) (tc : String) (m : List String) :
    apply_replace_strategy t s tc m = t ∨
      ∃ vs, vs.length ≤ min t.nrows s.nrows ∧
        apply_replace_strategy t s tc m = t.setCol tc vs := by
  unfold apply_replace_strategy
  cases m with
  | nil => exact Or.inl rfl
  | cons scol rest =>
    cases hg : s.getCol scol with
    | none => simp only [hg]; exact Or.inl (by simp)
    | some vs =>
      simp only [hg]
      exact Or.inr ⟨_, by rw [List.length_take]; exact Nat.min_le_left _ _, rfl⟩

lemma apply_concat_cases (t s : DataFrame) (tc : String) (m : List String) (r : String) :
    apply_concat_strategy t s tc m r = t ∨
      ∃ vs, vs.length ≤ min t.nrows s.nrows ∧
        apply_concat_strategy t s tc m r = t.setCol tc vs := by
  unfold apply_concat_strategy
  by_cases h1 : m.isEmpty
  · simp only [h1]
    exact Or.inl rfl
  · simp only [h1]
    by_cases h2 : m.all fun c => s.colNames.contains c
    · simp only [h2]
      exact Or.inr ⟨_, by simp, rfl⟩
    · simp only [h2]
      exact Or.inl rfl

lemma apply_prompt_merge_cases (llm : String → String) (t s : DataFrame) (tc : String)
    (m : List String) (tmpl : String) :
    apply_prompt_merge_strategy llm t s tc m tmpl = t ∨
      ∃ vs, vs.length ≤ min t.nrows s.nrows ∧
        apply_prompt_merge_strategy llm t s tc m tmpl = t.setCol tc vs := by
  unfold apply_prompt_merge_strategy
  by_cases h1 : m.isEmpty
  · simp only [h1]
    exact Or.inl rfl
  · simp only [h1]
    by_cases h2 : m.all fun c => s.colNames.contains c
    · simp only [h2]
      exact Or.inr ⟨_, by simp, rfl⟩
    · simp only [h2]
      exact Or.inl rfl

lemma apply_derive_cases (t s : DataFrame) (tc : String) (m : List String) (r : String) :
    apply_derive_strategy t s tc m r = t ∨
      ∃ vs, vs.length ≤ min t.nrows s.nrows ∧
        apply_derive_strategy t s tc m r = t.setCol tc vs := by
  unfold apply_derive_strategy
  by_cases h1 : r = ""
  · simp only [h1]
    exact Or.inl rfl
  · simp only [h1]
    exact Or.inr ⟨_, by simp, rfl⟩

lemma apply_transform_cases (t s : DataFrame) (tc : String) (m : List String) (r : String) :
    apply_transform_strategy t s tc m r = t ∨
      ∃ vs, vs.length ≤ min t.nrows s.nrows ∧
        apply_transform_strategy t s tc m r = t.setCol tc vs := by
  unfold apply_transform_strategy
  cases m with
  | nil => exact Or.inl rfl
  | cons scol rest =>
    cases hg : s.getCol scol with
    | none => simp only [hg]; exact Or.inl (by simp)
    | some vs =>
      simp only [hg]
      refine Or.inr ⟨_, ?_, rfl⟩
      rw [List.length_map, List.length_take]
      exact Nat.min_le_left _ _

lemma apply_field_strategy_cases (llm : String → String) (t s : DataFrame) (tc : String)
    (fs : FieldStrategy) :
    apply_field_strategy llm t s tc fs = t ∨
      ∃ vs, vs.length ≤ min t.nrows s.nrows ∧
        apply_field_strategy llm t s tc fs = t.setCol tc vs := by
  unfold apply_field_strategy
  by_cases h1 : fs.strategy = "replace"
  · simpa only [h1, if_pos] using apply_replace_cases t s tc fs.source_mapping
  by_cases h2 : fs.strategy = "concat"
  · simpa only [h1, h2, if_neg, if_pos] using
      apply_concat_cases t s tc fs.source_mapping fs.transformation_rule
  by_cases h3 : fs.strategy = "prompt_merge"
  · simpa only [h1, h2, h3, if_neg, if_pos] using
      apply_prompt_merge_cases llm t s tc fs.source_mapping fs.prompt_template
  by_cases h4 : fs.strategy = "derive"
  · simpa only [h1, h2, h3, h4, if_neg, if_pos] using
      apply_derive_cases t s tc fs.source_mapping fs.transformation_rule
  by_cases h5 : fs.strategy = "transform"
  · simpa only [h1, h2, h3, h4, h5, if_neg, if_pos] using
      apply_transform_cases t s tc fs.source_mapping fs.transformation_rule
  by_cases h6 : fs.strategy = "preserve"
  · simp only [h1, h2, h3, h4, h5, h6, if_neg, if_pos, if_true, if_false]
    exact Or.inl (by simp)
  · simp only [h1, h2, h3, h4, h5, h6, if_neg, if_pos, if_true, if_false]
    exact Or.inl (by simp)

lemma nrows_apply_field_strategy (llm : String → String) (t s : DataFrame) (tc : String)
    (fs : FieldStrategy) : (apply_field_strategy llm t s tc fs).nrows = t.nrows := by
  rcases apply_field_strategy_cases llm t s tc fs with h | ⟨vs, _, h⟩
  · rw [h]
  · rw [h, nrows_setCol]

lemma colNames_apply_field_strategy (llm : String → String) (t s : DataFrame) (tc : String)
    (fs : FieldStrategy) (h : tc ∈ t.colNames) :
    (apply_field_strategy llm t s tc fs).colNames = t.colNames := by
  rcases apply_field_strategy_cases llm t s tc fs with he | ⟨vs, _, he⟩
  · rw [he]
  · rw [he, colNames_setCol_of_mem _ _ _ h]

lemma getCol_apply_field_strategy_ne (llm : String → String) (t s : DataFrame) (tc : String)
    (fs : FieldStrategy) (c : String) (h : c ≠ tc) :
    (apply_field_strategy llm t s tc fs).getCol c = t.getCol c := by
  rcases apply_field_strategy_cases llm t s tc fs with he | ⟨vs, _, he⟩
  · rw [he]
  · rw [he, getCol_setCol_ne _ _ _ _ h]

lemma getCell_apply_field_strategy_ge (llm : String → String) (t s : DataFrame) (tc : String)
    (fs : FieldStrategy) (i : Nat) (h : s.nrows ≤ i) :
    (apply_field_strategy llm t s tc fs).getCell tc i = t.getCell tc i := by
  rcases apply_field_strategy_cases llm t s tc fs with he | ⟨vs, hlen, he⟩
  · rw [he]
  · rw [he]
    refine getCell_setCol_ge t tc vs i ?_
    calc vs.length ≤ min t.nrows s.nrows := hlen
      _ ≤ s.nrows := Nat.min_le_right _ _
      _ ≤ i := h

lemma colNames_truncRows (n : Nat) (df : DataFrame) :
    (truncRows n df).colNames = df.colNames := by
  show ((df.cols.map fun p => (p.1, p.2.take n)).map Prod.fst) = df.cols.map Prod.fst
  exact map_fst_keyed (fun _ old => old.take n) df.cols

lemma getCol_truncRows (n : Nat) (df : DataFrame) (c : String) :
    (truncRows n df).getCol c = (df.getCol c).map (List.take n) := by
  show lookupCol (df.cols.map fun p => (p.1, p.2.take n)) c
    = (lookupCol df.cols c).map (List.take n)
  exact lookupCol_map_keyed (fun _ old => old.take n) df.cols c

lemma getCell_truncRows (n : Nat) (df : DataFrame) (c : String) (i : Nat) (h : i < n) :
    (truncRows n df).getCell c i = df.getCell c i := by
  unfold DataFrame.getCell
  rw [getCol_truncRows]
  cases hl : df.getCol c with
  | none => rfl
  | some vs =>
    simp only [Option.map_some']
    rw [List.getElem?_take_of_lt h]

lemma min_trunc_eq (t s : Nat) : min t (min s t) = min t s := by omega

lemma apply_replace_eq_cons (t s : DataFrame) (tc scol : String) (rest : List String) :
    apply_replace_strategy t s tc (scol :: rest)
      = match s.getCol scol with
        | none => t
        | some vs => t.setCol tc (vs.take (min t.nrows s.nrows)) := rfl

lemma apply_replace_trunc (t s : DataFrame) (tc : String) (m : List String) :
    apply_replace_strategy t s tc m
      = apply_replace_strategy t (truncRows t.nrows s) tc m := by
  cases m with
  | nil => rfl
  | cons scol rest =>
    rw [apply_replace_eq_cons, apply_replace_eq_cons, getCol_truncRows]
    cases hg : s.getCol scol with
    | none => rfl
    | some vs =>
      simp only [Option.map_some']
      have hn : (truncRows t.nrows s).nrows = min s.nrows t.nrows := rfl
      rw [hn, min_trunc_eq, List.take_take]
      have harith : min (min t.nrows s.nrows) t.nrows = min t.nrows s.nrows := by omega
      rw [harith]

lemma concatRow_trunc (s : DataFrame) (srcMap : List String) (sep : String) (n i : Nat)
    (h : i < n) : concatRow (truncRows n s) srcMap sep i = concatRow s srcMap sep i := by
  show String.intercalate sep (srcMap.filterMap fun c =>
      match (truncRows n s).getCell c i with
      | none => none
      | some v => if pyStrip v = "" then none else some (pyStrip v))
    = String.intercalate sep (srcMap.filterMap fun c =>
      match s.getCell c i with
      | none => none
      | some v => if pyStrip v = "" then none else some (pyStrip v))
  congr 1
  refine List.filterMap_congr fun c _ => ?_
  rw [getCell_truncRows n s c i h]

lemma apply_concat_trunc (t s : DataFrame) (tc : String) (m : List String) (r : String) :
    apply_concat_strategy t s tc m r
      = apply_concat_strategy t (truncRows t.nrows s) tc m r := by
  unfold apply_concat_strategy
  rw [colNames_truncRows]
  by_cases h1 : m.isEmpty
  · rw [if_pos h1, if_pos h1]
  · rw [if_neg h1, if_neg h1]
    by_cases h2 : m.all fun c => s.colNames.contains c
    · rw [if_pos h2, if_pos h2]
      have hn : (truncRows t.nrows s).nrows = min s.nrows t.nrows := rfl
      have hm : min t.nrows (truncRows t.nrows s).nrows = min t.nrows s.nrows := by
        rw [hn]; omega
      rw [hm]
      show t.setCol tc ((List.range (min t.nrows s.nrows)).map fun i =>
          some (concatRow s m (if substrIn "comma" (pyLower r) then ", " else " ") i))
        = t.setCol tc ((List.range (min t.nrows s.nrows)).map fun i =>
          some (concatRow (truncRows t.nrows s) m
            (if substrIn "comma" (pyLower r) then ", " else " ") i))
      congr 1
      refine List.map_congr_left fun i hi => ?_
      have hin : i < t.nrows := by
        have := List.mem_range.1 hi
        omega
      rw [concatRow_trunc s m _ t.nrows i hin]
    · rw [if_neg h2, if_neg h2]

lemma apply_transform_eq_cons (t s : DataFrame) (tc scol : String) (rest : List String)
    (r : String) :
    apply_transform_strategy t s tc (scol :: rest) r
      = match s.getCol scol with
        | none => t
        | some vs =>
          t.setCol tc ((vs.take (min t.nrows s.nrows)).map fun v => some (transformValue r v)) :=
  rfl

lemma apply_transform_trunc (t s : DataFrame) (tc : String) (m : List String) (r : String) :
    apply_transform_strategy t s tc m r
      = apply_transform_strategy t (truncRows t.nrows s) tc m r := by
  cases m with
  | nil => rfl
  | cons scol rest =>
    rw [apply_transform_eq_cons, apply_transform_eq_cons, getCol_truncRows]
    cases hg : s.getCol scol with
    | none => rfl
    | some vs =>
      simp only [Option.map_some']
      have hn : (truncRows t.nrows s).nrows = min s.nrows t.nrows := rfl
      rw [hn, min_trunc_eq, List.take_take]
      have harith : min (min t.nrows s.nrows) t.nrows = min t.nrows s.nrows := by omega
      rw [harith]

lemma nrows_applyTrim (df : DataFrame) : (applyTrim df).nrows = df.nrows := rfl

lemma colNames_applyTrim (df : DataFrame) : (applyTrim df).colNames = df.colNames := by
  show ((df.cols.map fun p => (p.1, p.2.map trimCell)).map Prod.fst) = df.cols.map Prod.fst
  exact map_fst_keyed (fun _ old => old.map trimCell) df.cols

lemma getCol_applyTrim (df : DataFrame) (c : String) :
    (applyTrim df).getCol c = (df.getCol c).map (List.map trimCell) := by
  show lookupCol (df.cols.map fun p => (p.1, p.2.map trimCell)) c
    = (lookupCol df.cols c).map (List.map trimCell)
  exact lookupCol_map_keyed (fun _ old => old.map trimCell) df.cols c

lemma colNames_dropDuplicates (df : DataFrame) (S : List String) :
    (dropDuplicates df S).colNames = df.colNames := by
  show ((df.cols.map fun p => (p.1,
      ((List.range df.nrows).filter fun i => keepRow df S i).map fun i =>
        (p.2[i]?).getD none)).map Prod.fst) = df.cols.map Prod.fst
  exact map_fst_keyed
    (fun _ old => ((List.range df.nrows).filter fun i => keepRow df S i).map fun i =>
      (old[i]?).getD none) df.cols

lemma getCol_dropDuplicates (df : DataFrame) (S : List String) (c : String) :
    (dropDuplicates df S).getCol c
      = (df.getCol c).map fun old =>
          ((List.range df.nrows).filter fun i => keepRow df S i).map fun i =>
            (old[i]?).getD none := by
  show lookupCol (df.cols.map fun p => (p.1,
      ((List.range df.nrows).filter fun i => keepRow df S i).map fun i =>
        (p.2[i]?).getD none)) c
    = (lookupCol df.cols c).map fun old =>
        ((List.range df.nrows).filter fun i => keepRow df S i).map fun i =>
          (old[i]?).getD none
  exact lookupCol_map_keyed
    (fun _ old => ((List.range df.nrows).filter fun i => keepRow df S i).map fun i =>
      (old[i]?).getD none) df.cols c

lemma colNames_applyDedup (df : DataFrame) (dr : DedupRule) :
    (applyDedup df dr).colNames = df.colNames := by
  unfold applyDedup
  by_cases h1 : dr.strategy = "email_based" ∧ emailColumns df ≠ []
  · rw [if_pos h1, colNames_dropDuplicates]
  · rw [if_neg h1]
    by_cases h2 : dr.key_fields ≠ [] ∧ ∀ c ∈ dr.key_fields, c ∈ df.colNames
    · rw [if_pos h2, colNames_dropDuplicates]
    · rw [if_neg h2]

lemma colNames_apply_data_quality_rules (df : DataFrame) (q : QualityRules) :
    (apply_data_quality_rules df q).colNames = df.colNames := by
  unfold apply_data_quality_rules
  cases hq : q.deduplication with
  | none =>
    by_cases ht : q.trim_whitespace
    · rw [if_pos ht, colNames_applyTrim]
    · rw [if_neg ht]
  | some dr =>
    by_cases ht : q.trim_whitespace
    · rw [if_pos ht, colNames_applyDedup, colNames_applyTrim]
    · rw [if_neg ht, colNames_applyDedup]

lemma nrows_apply_data_quality_rules_nodedup (df : DataFrame) (q : QualityRules)
    (h : q.deduplication = none) :
    (apply_data_quality_rules df q).nrows = df.nrows := by
  unfold apply_data_quality_rules
  rw [h]
  by_cases ht : q.trim_whitespace
  · rw [if_pos ht, nrows_applyTrim]
  · rw [if_neg ht]

lemma trimCell_blank : trimCell (some "") = some "" := by decide

lemma pyStrip_blank : pyStrip "" = "" := rfl

lemma getCol_applyTrim_const (df : DataFrame) (c : String)
    (hc : df.getCol c = some (List.replicate df.nrows (some ""))) :
    (applyTrim df).getCol c
      = some (List.replicate (applyTrim df).nrows (some "")) := by
  rw [getCol_applyTrim, hc, nrows_applyTrim]
  simp [List.map_replicate, trimCell_blank]

lemma getCol_dropDuplicates_const (df : DataFrame) (S : List String) (c : String)
    (hc : df.getCol c = some (List.replicate df.nrows (some ""))) :
    (dropDuplicates df S).getCol c
      = some (List.replicate (dropDuplicates df S).nrows (some "")) := by
  rw [getCol_dropDuplicates, hc]
  simp only [Option.map_some']
  congr 1
  refine List.eq_replicate_iff.2 ⟨by simp [dropDuplicates], ?_⟩
  intro b hb
  rcases List.mem_map.1 hb with ⟨i, hi, rfl⟩
  have hilt : i < df.nrows := List.mem_range.1 (List.mem_filter.1 hi).1
  rw [List.getElem?_replicate, if_pos hilt]
  rfl

lemma getCol_applyDedup_const (df : DataFrame) (dr : DedupRule) (c : String)
    (hc : df.getCol c = some (List.replicate df.nrows (some ""))) :
    (applyDedup df dr).getCol c
      = some (List.replicate (applyDedup df dr).nrows (some "")) := by
  unfold applyDedup
  by_cases h1 : dr.strategy = "email_based" ∧ emailColumns df ≠ []
  · rw [if_pos h1]
    exact getCol_dropDuplicates_const df _ c hc
  · rw [if_neg h1]
    by_cases h2 : dr.key_fields ≠ [] ∧ ∀ c ∈ dr.key_fields, c ∈ df.colNames
    · rw [if_pos h2]
      exact getCol_dropDuplicates_const df _ c hc
    · rw [if_neg h2]
      exact hc

lemma getCol_apply_data_quality_rules_const (df : DataFrame) (q : QualityRules) (c : String)
    (hc : df.getCol c = some (List.replicate df.nrows (some ""))) :
    (apply_data_quality_rules df q).getCol c
      = some (List.replicate (apply_data_quality_rules df q).nrows (some "")) := by
  unfold apply_data_quality_rules
  cases hq : q.deduplication with
  | none =>
    by_cases ht : q.trim_whitespace
    · rw [if_pos ht]
      exact getCol_applyTrim_const df c hc
    · rw [if_neg ht]
      exact hc
  | some dr =>
    by_cases ht : q.trim_whitespace
    · rw [if_pos ht]
      exact getCol_applyDedup_const (applyTrim df) dr c (getCol_applyTrim_const df c hc)
    · rw [if_neg ht]
      exact getCol_applyDedup_const df dr c hc

lemma foldl_strategies_nrows (llm : String → String) (s : DataFrame)
    (l : List (String × FieldStrategy)) (init : DataFrame) :
    (l.foldl (fun acc p => apply_field_strategy llm acc s p.1 p.2) init).nrows
      = init.nrows := by
  induction l generalizing init with
  | nil => rfl
  | cons p ps ih => rw [List.foldl_cons, ih, nrows_apply_field_strategy]

lemma foldl_strategies_colNames (llm : String → String) (s : DataFrame)
    (l : List (String × FieldStrategy)) (init : DataFrame) (C : List String)
    (hinit : init.colNames = C) (hk : ∀ p ∈ l, p.1 ∈ C) :
    (l.foldl (fun acc p => apply_field_strategy llm acc s p.1 p.2) init).colNames = C := by
  induction l generalizing init with
  | nil => exact hinit
  | cons p ps ih =>
    rw [List.foldl_cons]
    refine ih _ ?_ fun q hq => hk q (List.mem_cons_of_mem p hq)
    rw [colNames_apply_field_strategy llm init s p.1 p.2 ?_, hinit]
    rw [hinit]
    exact hk p (List.mem_cons_self p ps)

lemma foldl_strategies_getCol_ne (llm : String → String) (s : DataFrame)
    (l : List (String × FieldStrategy)) (init : DataFrame) (c : String)
    (hk : ∀ p ∈ l, p.1 ≠ c) :
    (l.foldl (fun acc p => apply_field_strategy llm acc s p.1 p.2) init).getCol c
      = init.getCol c := by
  induction l generalizing init with
  | nil => rfl
  | cons p ps ih =>
    rw [List.foldl_cons]
    rw [ih _ fun q hq => hk q (List.mem_cons_of_mem p hq)]
    exact getCol_apply_field_strategy_ne llm init s p.1 p.2 c
      fun hcp => hk p (List.mem_cons_self p ps) hcp.symm

lemma length_updateAt {α : Type} (f : α → α) (n : Nat) (l : List α) :
    (updateAt f n l).length = l.length := by
  induction l generalizing n with
  | nil => cases n <;> rfl
  | cons x xs ih =>
    cases n with
    | zero => rfl
    | succ k => simp [updateAt, ih]

lemma bestMatch_cons (schema : List SchemaColumn) (src r : ERow) (rs : List ERow) :
    bestMatch schema src (r :: rs)
      = match bestMatch schema src rs with
        | none => some (0, matchScore schema src r)
        | some (j, b) =>
          if matchScore schema src r < b then some (j + 1, b)
          else some (0, matchScore schema src r) := rfl

lemma bestMatch_none_iff (schema : List SchemaColumn) (src : ERow) (rows : List ERow) :
    bestMatch schema src rows = none ↔ rows = [] := by
  cases rows with
  | nil => simp [bestMatch]
  | cons r rs =>
    rw [bestMatch_cons]
    cases hb : bestMatch schema src rs with
    | none => simp
    | some pr =>
      rcases pr with ⟨j, b⟩
      by_cases hlt : matchScore schema src r < b
      · simp [hlt]
      · simp [hlt]

lemma bestMatch_max (schema : List SchemaColumn) (src : ERow) (rows : List ERow)
    (i : Nat) (sc : ℚ) (h : bestMatch schema src rows = some (i, sc)) :
    sc ∈ rows.map (matchScore schema src)
      ∧ ∀ x ∈ rows.map (matchScore schema src), x ≤ sc := by
  induction rows generalizing i sc with
  | nil => exact absurd h (by simp [bestMatch])
  | cons r rs ih =>
    rw [bestMatch_cons] at h
    cases hb : bestMatch schema src rs with
    | none =>
      simp only [hb] at h
      simp only [Option.some.injEq, Prod.mk.injEq] at h
      have hrs : rs = [] := (bestMatch_none_iff schema src rs).1 hb
      subst hrs
      simp [← h.2]
    | some pr =>
      rcases pr with ⟨j, b⟩
      simp only [hb] at h
      have ihs := ih j b hb
      by_cases hlt : matchScore schema src r < b
      · rw [if_pos hlt] at h
        simp only [Option.some.injEq, Prod.mk.injEq] at h
        rcases h with ⟨-, hs⟩
        subst hs
        refine ⟨List.mem_cons_of_mem _ ihs.1, ?_⟩
        intro x hx
        rcases List.mem_cons.1 hx with hx | hx
        · exact hx ▸ le_of_lt hlt
        · exact ihs.2 x hx
      · rw [if_neg hlt] at h
        simp only [Option.some.injEq, Prod.mk.injEq] at h
        rcases h with ⟨-, hs⟩
        subst hs
        refine ⟨by simp, ?_⟩
        intro x hx
        rcases List.mem_cons.1 hx with hx | hx
        · exact le_of_eq hx
        · exact le_trans (ihs.2 x hx) (not_lt.1 hlt)

lemma scoreContrib_eq_ite (col : SchemaColumn) (src tgt : ERow) :
    scoreContrib col src tgt
      = if entityHit col src tgt = true then col.identity_indication else 0 := by
  unfold scoreContrib entityHit
  cases hsv : lookupCol src col.name with
  | none => simp
  | some v =>
    by_cases hv : v = ""
    · simp [hv]
    · cases hw : lookupCol tgt col.name with
      | none => simp [hv]
      | some w =>
        by_cases hvw : v = w
        · subst hvw
          simp [hv]
        · have hwv : ¬ (some w = some v) := by
            simp only [Option.some.injEq]
            exact fun he => hvw he.symm
          simp [hv, hvw, hwv]

lemma matchScore_eq_filter_sum (schema : List SchemaColumn) (src tgt : ERow) :
    matchScore schema src tgt
      = ((schema.filter fun col => col.is_entity_identifier && entityHit col src tgt).map
          SchemaColumn.identity_indication).sum := by
  induction schema with
  | nil => rfl
  | cons col rest ih =>
    unfold matchScore at ih ⊢
    simp only [List.map_cons, List.sum_cons, List.filter_cons]
    rw [scoreContrib_eq_ite col src tgt]
    by_cases he : col.is_entity_identifier
    · by_cases hh : entityHit col src tgt
      · have hcond : (col.is_entity_identifier && entityHit col src tgt) = true := by
          simp [he, hh]
        rw [if_pos he, if_pos hh, hcond]
        simp only [if_true, List.map_cons, List.sum_cons]
        rw [ih]
      · have hcond : (col.is_entity_identifier && entityHit col src tgt) = false := by
          simp [he, hh]
        rw [if_pos he, if_neg hh, hcond]
        simp only [Bool.false_eq_true, if_false]
        rw [ih, zero_add]
    · have hcond : (col.is_entity_identifier && entityHit col src tgt) = false := by
        simp [he]
      rw [if_neg he, hcond]
      simp only [Bool.false_eq_true, if_false]
      rw [ih, zero_add]

lemma lookupCol_cons_self (c : String) (x : α) (l : List (String × α)) :
    lookupCol ((c, x) :: l) c = some x := by
  simp [lookupCol]

lemma lookupCol_cons_ne (d c : String) (x : α) (l : List (String × α)) (h : d ≠ c) :
    lookupCol ((d, x) :: l) c = lookupCol l c := by
  simp [lookupCol, h]

lemma colNames_emptyFrame (cols : List String) : (emptyFrame cols).colNames = cols := by
  show ((cols.map fun c => (c, ([] : List Cell))).map Prod.fst) = cols
  induction cols with
  | nil => rfl
  | cons d ds ih => simp [ih]

lemma colNames_filledFrame (cols : List String) (n : Nat) :
    (filledFrame cols n).colNames = cols := by
  show ((cols.map fun c => (c, List.replicate n (some ""))).map Prod.fst) = cols
  induction cols with
  | nil => rfl
  | cons d ds ih => simp [ih]

lemma getCol_filledFrame (cols : List String) (n : Nat) (c : String) (h : c ∈ cols) :
    (filledFrame cols n).getCol c = some (List.replicate n (some "")) := by
  show lookupCol (cols.map fun c => (c, List.replicate n (some ""))) c
    = some (List.replicate n (some ""))
  induction cols with
  | nil => simp at h
  | cons d ds ih =>
    by_cases hdc : d = c
    · subst hdc
      exact lookupCol_cons_self d _ _
    · rw [List.map_cons, lookupCol_cons_ne d c _ _ hdc]
      rcases List.mem_cons.1 h with hc | hc
      · exact absurd hc.symm hdc
      · exact ih hc

lemma nrows_init_result (target0 : DataFrame) (cols : List String) (srcRows : Nat) :
    (init_result target0 cols srcRows).nrows
      = if target0.nrows = 0 then srcRows else target0.nrows := by
  unfold init_result
  split
  · rfl
  · rfl

lemma colNames_init_result (target0 : DataFrame) (cols : List String) (srcRows : Nat)
    (h : target0.colNames = cols) : (init_result target0 cols srcRows).colNames = cols := by
  unfold init_result
  split
  · exact colNames_filledFrame cols srcRows
  · exact h

lemma nrows_run_field_strategies (llm : String → String) (sourceDf : DataFrame)
    (l : List (String × FieldStrategy)) (init : DataFrame) :
    (run_field_strategies llm sourceDf l init).nrows = init.nrows :=
  foldl_strategies_nrows llm sourceDf l init

lemma colNames_run_field_strategies (llm : String → String) (sourceDf : DataFrame)
    (l : List (String × FieldStrategy)) (init : DataFrame) (C : List String)
    (hinit : init.colNames = C) (hk : ∀ p ∈ l, p.1 ∈ C) :
    (run_field_strategies llm sourceDf l init).colNames = C :=
  foldl_strategies_colNames llm sourceDf l init C hinit hk

lemma getCol_run_field_strategies_ne (llm : String → String) (sourceDf : DataFrame)
    (l : List (String × FieldStrategy)) (init : DataFrame) (c : String)
    (hk : ∀ p ∈ l, p.1 ≠ c) :
    (run_field_strategies llm sourceDf l init).getCol c = init.getCol c :=
  foldl_strategies_getCol_ne llm sourceDf l init c hk

lemma nrows_run_quality_nodedup (qualityRules : Option QualityRules) (df : DataFrame)
    (h : ∀ q, qualityRules = some q → q.deduplication = none) :
    (run_quality qualityRules df).nrows = df.nrows := by
  unfold run_quality
  cases hq : qualityRules with
  | none => rfl
  | some q => exact nrows_apply_data_quality_rules_nodedup df q (h q hq)

lemma colNames_run_quality (qualityRules : Option QualityRules) (df : DataFrame) :
    (run_quality qualityRules df).colNames = df.colNames := by
  unfold run_quality
  cases qualityRules with
  | none => rfl
  | some q => exact colNames_apply_data_quality_rules df q

lemma getCol_run_quality_const (qualityRules : Option QualityRules) (df : DataFrame)
    (c : String) (hc : df.getCol c = some (List.replicate df.nrows (some ""))) :
    (run_quality qualityRules df).getCol c
      = some (List.replicate (run_quality qualityRules df).nrows (some "")) := by
  unfold run_quality
  cases qualityRules with
  | none => exact hc
  | some q => exact getCol_apply_data_quality_rules_const df q c hc

lemma execute_ingestion_colNames (llm : String → String) (targetDf : Option DataFrame)
    (sourceDf : DataFrame) (schemaCols : List String)
    (fieldStrategies : List (String × FieldStrategy)) (qualityRules : Option QualityRules)
    (hcols : ∀ df, targetDf = some df → df.nrows ≠ 0 → df.colNames = schemaCols)
    (hkeys : ∀ p ∈ fieldStrategies, p.1 ∈ schemaCols) :
    (execute_ingestion llm targetDf sourceDf schemaCols fieldStrategies
        qualityRules).colNames = schemaCols := by
  unfold execute_ingestion
  rw [colNames_run_quality]
  refine colNames_run_field_strategies llm sourceDf fieldStrategies _ schemaCols ?_ hkeys
  unfold init_result
  split
  · exact colNames_filledFrame schemaCols sourceDf.nrows
  · cases htd : targetDf with
    | none =>
      unfold load_target at *
      simp only [htd] at *
      exact absurd rfl ‹¬ (emptyFrame schemaCols).nrows = 0›
    | some df =>
      unfold load_target at *
      simp only [htd] at *
      exact hcols df rfl ‹¬ df.nrows = 0›

lemma execute_ingestion_nrows_nodedup (llm : String → String) (targetDf : Option DataFrame)
    (sourceDf : DataFrame) (schemaCols : List String)
    (fieldStrategies : List (String × FieldStrategy)) (qualityRules : Option QualityRules)
    (hnodedup : ∀ q, qualityRules = some q → q.deduplication = none) :
    (execute_ingestion llm targetDf sourceDf schemaCols fieldStrategies
        qualityRules).nrows
      = if (load_target targetDf schemaCols).nrows = 0 then sourceDf.nrows
        else (load_target targetDf schemaCols).nrows := by
  unfold execute_ingestion
  rw [nrows_run_quality_nodedup qualityRules _ hnodedup,
    nrows_run_field_strategies, nrows_init_result]

lemma targetRowCount_load (targetDf : Option DataFrame) (schemaCols : List String) :
    (load_target targetDf schemaCols).nrows = targetRowCount targetDf := by
  cases targetDf with
  | none => rfl
  | some df => rfl

lemma getCell_of_getCol_replicate (df : DataFrame) (c : String) (i : Nat)
    (h : df.getCol c = some (List.replicate df.nrows (some "")))
    (hi : i < df.nrows) : df.getCell c i = some "" := by
  unfold DataFrame.getCell
  rw [h]
  show (match (List.replicate df.nrows (some ""))[i]? with
    | none => none
    | some x => x) = some ""
  rw [List.getElem?_replicate, if_pos hi]

lemma ingestRow_eq (schema : List SchemaColumn) (dm : String → String → String → String)
    (src : ERow) (rows : List ERow) :
    ingestRow schema dm src rows
      = match bestMatch schema src rows with
        | none => rows ++ [newEntityRow schema dm src]
        | some (i, s) =>
          if matchThreshold ≤ s then updateAt (mergeRowModel schema dm src) i rows
          else rows ++ [newEntityRow schema dm src] := rfl

end Lemmas

/-- C3: the claim says a failed per-column strategy call propagates as an
error to the caller; the builder in `strategy.py` instead catches the
failure and silently substitutes the fallback `preserve` strategy, so the
claim is false: with an always-failing mapping call the builder still
returns a mapping, and it is the fallback default. -/
theorem claim_C3_counterexample :
    create_field_mappings (fun _ => Except.error "API timeout") ["email"]
      = [("email", get_fallback_field_strategy "email")]
    ∧ (get_fallback_field_strategy "email").strategy = "preserve" :=
  ⟨rfl, rfl⟩

/-- C3 amended: when the mapping call for a target column fails, the builder
does not propagate the failure; it maps that column to the fallback
`preserve` strategy (confidence 0.1, empty source mapping) and strategy
construction always succeeds. -/
theorem claim_C3_amended_fallback (attempt : String → Except String FieldStrategy)
    (cols : List String) (c : String) (hc : c ∈ cols)
    (e : String) (herr : attempt c = Except.error e) :
    lookupCol (create_field_mappings attempt cols) c
      = some (get_fallback_field_strategy c) := by
  induction cols with
  | nil => simp at hc
  | cons d ds ih =>
    show lookupCol ((d, match attempt d with
        | Except.ok fs => fs
        | Except.error _ => get_fallback_field_strategy d) :: create_field_mappings attempt ds) c
      = some (get_fallback_field_strategy c)
    by_cases hdc : d = c
    · subst hdc
      rw [lookupCol_cons_self, herr]
    · rw [lookupCol_cons_ne d c _ _ hdc]
      rcases List.mem_cons.1 hc with hcc | hcc
      · exact absurd hcc.symm hdc
      · exact ih hcc

/-- Witness for the amended C3 at a concrete failing column. -/
theorem claim_C3_amended_fallback_witness :
    lookupCol (create_field_mappings (fun _ => Except.error "boom") ["email"]) "email"
      = some (get_fallback_field_strategy "email") :=
  claim_C3_amended_fallback (fun _ => Except.error "boom") ["email"] "email"
    (List.mem_cons_self "email" []) "boom" rfl

/-- C7: the deterministic `transform` strategy is a pure function of the
rule and the source row values with no hidden state: running the strategy a
second time over its own output (same rule, same source) changes nothing. -/
theorem claim_C7_transform_deterministic (target source : DataFrame)
    (tcol : String) (srcMap : List String) (rule : String) :
    apply_transform_strategy (apply_transform_strategy target source tcol srcMap rule)
        source tcol srcMap rule
      = apply_transform_strategy target source tcol srcMap rule := by
  cases srcMap with
  | nil => rfl
  | cons scol rest =>
    rw [apply_transform_eq_cons, apply_transform_eq_cons]
    cases hg : source.getCol scol with
    | none => simp only [hg]
    | some vs =>
      simp only [hg]
      rw [nrows_setCol]
      exact setCol_setCol target tcol _

/-- C9: a field strategy whose strategy name is none of replace, concat,
prompt_merge, derive, transform or preserve leaves the target table
completely unchanged, identical to an explicit preserve strategy. -/
theorem claim_C9_unknown_strategy_preserves (llm : String → String)
    (target source : DataFrame) (tcol : String) (fs : FieldStrategy)
    (h : fs.strategy ∉ (["replace", "concat", "prompt_merge", "derive",
        "transform", "preserve"] : List String)) :
    apply_field_strategy llm target source tcol fs = target
    ∧ apply_field_strategy llm target source tcol
        { fs with strategy := "preserve" } = target := by
  have h1 : fs.strategy ≠ "replace" := fun he => h (by simp [he])
  have h2 : fs.strategy ≠ "concat" := fun he => h (by simp [he])
  have h3 : fs.strategy ≠ "prompt_merge" := fun he => h (by simp [he])
  have h4 : fs.strategy ≠ "derive" := fun he => h (by simp [he])
  have h5 : fs.strategy ≠ "transform" := fun he => h (by simp [he])
  have h6 : fs.strategy ≠ "preserve" := fun he => h (by simp [he])
  constructor
  · unfold apply_field_strategy
    rw [if_neg h1, if_neg h2, if_neg h3, if_neg h4, if_neg h5, if_neg h6]
  · have hp1 : ({ fs with strategy := "preserve" } : FieldStrategy).strategy ≠ "replace" := by
      show ("preserve" : String) ≠ "replace"
      decide
    have hp2 : ({ fs with strategy := "preserve" } : FieldStrategy).strategy ≠ "concat" := by
      show ("preserve" : String) ≠ "concat"
      decide
    have hp3 : ({ fs with strategy := "preserve" } : FieldStrategy).strategy
        ≠ "prompt_merge" := by
      show ("preserve" : String) ≠ "prompt_merge"
      decide
    have hp4 : ({ fs with strategy := "preserve" } : FieldStrategy).strategy ≠ "derive" := by
      show ("preserve" : String) ≠ "derive"
      decide
    have hp5 : ({ fs with strategy := "preserve" } : FieldStrategy).strategy
        ≠ "transform" := by
      show ("preserve" : String) ≠ "transform"
      decide
    have hp6 : ({ fs with strategy := "preserve" } : FieldStrategy).strategy = "preserve" := rfl
    unfold apply_field_strategy
    rw [if_neg hp1, if_neg hp2, if_neg hp3, if_neg hp4, if_neg hp5, if_pos hp6]

/-- Witness for C9 at a concrete unknown strategy name. -/
theorem claim_C9_unknown_strategy_preserves_witness :
    apply_field_strategy idOracle tgtTwoCols srcOneRow "email" bananaStrategy = tgtTwoCols
    ∧ apply_field_strategy idOracle tgtTwoCols srcOneRow "email"
        { bananaStrategy with strategy := "preserve" } = tgtTwoCols :=
  claim_C9_unknown_strategy_preserves idOracle tgtTwoCols srcOneRow "email" bananaStrategy
    (by decide)

/-- C10: a replace, concat or transform strategy on target column `X` only
ever writes the first `min(len(target), len(source))` positions of column
`X`: every other column is unchanged in all rows, every target row at an
index at or beyond the source length keeps its prior `X` value, and source
rows at indices at or beyond the target length contribute nothing (the
result equals the run against the source truncated to the target length). -/
theorem claim_C10_frame_effect (llm : String → String) (target source : DataFrame)
    (tcol : String) (fs : FieldStrategy)
    (h : fs.strategy ∈ (["replace", "concat", "transform"] : List String)) :
    (∀ c, c ≠ tcol →
        (apply_field_strategy llm target source tcol fs).getCol c = target.getCol c)
    ∧ (∀ i, source.nrows ≤ i →
        (apply_field_strategy llm target source tcol fs).getCell tcol i
          = target.getCell tcol i)
    ∧ apply_field_strategy llm target source tcol fs
        = apply_field_strategy llm target (truncRows target.nrows source) tcol fs := by
  refine ⟨fun c hc => getCol_apply_field_strategy_ne llm target source tcol fs c hc,
    fun i hi => getCell_apply_field_strategy_ge llm target source tcol fs i hi, ?_⟩
  have hh : fs.strategy = "replace" ∨ fs.strategy = "concat"
      ∨ fs.strategy = "transform" := by simpa using h
  rcases hh with h1 | h1 | h1
  · unfold apply_field_strategy
    rw [if_pos h1, if_pos h1]
    exact apply_replace_trunc target source tcol fs.source_mapping
  · have hne1 : fs.strategy ≠ "replace" := by rw [h1]; decide
    unfold apply_field_strategy
    rw [if_neg hne1, if_neg hne1, if_pos h1, if_pos h1]
    exact apply_concat_trunc target source tcol fs.source_mapping fs.transformation_rule
  · have hne1 : fs.strategy ≠ "replace" := by rw [h1]; decide
    have hne2 : fs.strategy ≠ "concat" := by rw [h1]; decide
    have hne3 : fs.strategy ≠ "prompt_merge" := by rw [h1]; decide
    have hne4 : fs.strategy ≠ "derive" := by rw [h1]; decide
    unfold apply_field_strategy
    rw [if_neg hne1, if_neg hne1, if_neg hne2, if_neg hne2, if_neg hne3, if_neg hne3,
      if_neg hne4, if_neg hne4, if_pos h1, if_pos h1]
    exact apply_transform_trunc target source tcol fs.source_mapping fs.transformation_rule

/-- Witness for C10 at a concrete replace run: the other column is
untouched, the second target row keeps its email, and truncating the source
to the target length changes nothing. -/
theorem claim_C10_frame_effect_witness :
    (apply_field_strategy idOracle tgtTwoCols srcOneRow "email"
        replaceEmailStrategy).getCol "notes" = tgtTwoCols.getCol "notes"
    ∧ (apply_field_strategy idOracle tgtTwoCols srcOneRow "email"
        replaceEmailStrategy).getCell "email" 1 = tgtTwoCols.getCell "email" 1
    ∧ apply_field_strategy idOracle tgtTwoCols srcOneRow "email" replaceEmailStrategy
        = apply_field_strategy idOracle tgtTwoCols (truncRows tgtTwoCols.nrows srcOneRow)
            "email" replaceEmailStrategy := by
  have h := claim_C10_frame_effect idOracle tgtTwoCols srcOneRow "email"
    replaceEmailStrategy (by decide)
  exact ⟨h.1 "notes" (by decide), h.2.1 1 (by decide), h.2.2⟩

/-- C4 counterexample: the claim says no target row is ever deleted and the
result has at least the initial row count; but an email-based deduplication
quality rule drops a duplicated initial target row — starting from two rows
the run ends with one. -/
theorem claim_C4_counterexample :
    (execute_ingestion idOracle (some tgtDupEmail) srcEmptyRows ["email"] []
        (some dedupEmailRules)).nrows = 1
    ∧ tgtDupEmail.nrows = 2 := by
  constructor
  · rfl
  · rfl

/-- C4 amended: the target's column set equals the schema's column names
throughout the run (given that a loaded non-empty target conforms to the
schema and every field strategy targets a schema column), and rows are never
deleted — the row count of the result is at least the initial target row
count — provided no deduplication quality rule is present; deduplication is
the only step that can drop rows. -/
theorem claim_C4_amended_columns_rows (llm : String → String)
    (targetDf : Option DataFrame) (sourceDf : DataFrame) (schemaCols : List String)
    (fieldStrategies : List (String × FieldStrategy)) (qualityRules : Option QualityRules)
    (hcols : ∀ df, targetDf = some df → df.nrows ≠ 0 → df.colNames = schemaCols)
    (hkeys : ∀ p ∈ fieldStrategies, p.1 ∈ schemaCols)
    (hnodedup : ∀ q, qualityRules = some q → q.deduplication = none) :
    (execute_ingestion llm targetDf sourceDf schemaCols fieldStrategies
        qualityRules).colNames = schemaCols
    ∧ targetRowCount targetDf
        ≤ (execute_ingestion llm targetDf sourceDf schemaCols fieldStrategies
            qualityRules).nrows := by
  refine ⟨execute_ingestion_colNames llm targetDf sourceDf schemaCols fieldStrategies
    qualityRules hcols hkeys, ?_⟩
  rw [execute_ingestion_nrows_nodedup llm targetDf sourceDf schemaCols fieldStrategies
    qualityRules hnodedup, targetRowCount_load targetDf schemaCols]
  split
  · omega
  · omega

/-- Witness for the amended C4 at a concrete run without deduplication. -/
theorem claim_C4_amended_columns_rows_witness :
    (execute_ingestion idOracle (some tgtDupEmail) srcDupEmail ["email"]
        [("email", replaceEmailStrategy)] none).colNames = ["email"]
    ∧ 2 ≤ (execute_ingestion idOracle (some tgtDupEmail) srcDupEmail ["email"]
        [("email", replaceEmailStrategy)] none).nrows := by
  have h := claim_C4_amended_columns_rows idOracle (some tgtDupEmail) srcDupEmail ["email"]
    [("email", replaceEmailStrategy)] none
    (fun df hdf _ => by cases hdf; rfl)
    (by decide)
    (fun q hq => by cases hq)
  exact ⟨h.1, h.2⟩

/-- C5 counterexample: the claim says ingesting N source rows into an empty
target always yields exactly N rows; with an email-based deduplication rule
and two identical source rows the run yields one row, not two. -/
theorem claim_C5_counterexample :
    (execute_ingestion idOracle none srcDupEmail ["email"]
        [("email", replaceEmailStrategy)] (some dedupEmailRules)).nrows = 1
    ∧ srcDupEmail.nrows = 2 := by
  constructor
  · rfl
  · rfl

/-- C5 amended: ingesting a source table of N rows into an empty target
produces exactly N rows — no merge against the empty table occurs —
provided no deduplication quality rule is present; deduplication may drop
duplicate rows afterwards. -/
theorem claim_C5_amended_cold_start (llm : String → String)
    (targetDf : Option DataFrame) (sourceDf : DataFrame) (schemaCols : List String)
    (fieldStrategies : List (String × FieldStrategy)) (qualityRules : Option QualityRules)
    (hempty : targetRowCount targetDf = 0)
    (hnodedup : ∀ q, qualityRules = some q → q.deduplication = none) :
    (execute_ingestion llm targetDf sourceDf schemaCols fieldStrategies
        qualityRules).nrows = sourceDf.nrows := by
  rw [execute_ingestion_nrows_nodedup llm targetDf sourceDf schemaCols fieldStrategies
    qualityRules hnodedup, targetRowCount_load targetDf schemaCols, if_pos hempty]

/-- Witness for the amended C5 at a concrete cold-start run. -/
theorem claim_C5_amended_cold_start_witness :
    (execute_ingestion idOracle none srcDupEmail ["email"]
        [("email", replaceEmailStrategy)] none).nrows = 2 :=
  claim_C5_amended_cold_start idOracle none srcDupEmail ["email"]
    [("email", replaceEmailStrategy)] none rfl (fun q hq => by cases hq)

/-- C6: on a cold start (empty target, so every result row is an appended
new row), every schema column is present in the result — the result's
columns are exactly the schema's column names — and a schema column covered
by no field strategy holds the empty value in every row, through the quality
rules included. -/
theorem claim_C6_append_completeness (llm : String → String)
    (targetDf : Option DataFrame) (sourceDf : DataFrame) (schemaCols : List String)
    (fieldStrategies : List (String × FieldStrategy)) (qualityRules : Option QualityRules)
    (hempty : targetRowCount targetDf = 0)
    (hkeys : ∀ p ∈ fieldStrategies, p.1 ∈ schemaCols) :
    (execute_ingestion llm targetDf sourceDf schemaCols fieldStrategies
        qualityRules).colNames = schemaCols
    ∧ ∀ c ∈ schemaCols, (∀ p ∈ fieldStrategies, p.1 ≠ c) →
        ∀ i < (execute_ingestion llm targetDf sourceDf schemaCols fieldStrategies
            qualityRules).nrows,
          (execute_ingestion llm targetDf sourceDf schemaCols fieldStrategies
              qualityRules).getCell c i = some "" := by
  have hz : (load_target targetDf schemaCols).nrows = 0 := by
    rw [targetRowCount_load]
    exact hempty
  have h0 : init_result (load_target targetDf schemaCols) schemaCols sourceDf.nrows
      = filledFrame schemaCols sourceDf.nrows := by
    unfold init_result
    rw [if_pos hz]
  have hex : execute_ingestion llm targetDf sourceDf schemaCols fieldStrategies qualityRules
      = run_quality qualityRules (run_field_strategies llm sourceDf fieldStrategies
          (filledFrame schemaCols sourceDf.nrows)) := by
    unfold execute_ingestion
    rw [h0]
  constructor
  · exact execute_ingestion_colNames llm targetDf sourceDf schemaCols fieldStrategies
      qualityRules
      (fun df hdf hn => absurd (by rw [hdf] at hempty; exact hempty) hn) hkeys
  · intro c hc hun i hi
    rw [hex] at hi ⊢
    have hcol1 : (run_field_strategies llm sourceDf fieldStrategies
        (filledFrame schemaCols sourceDf.nrows)).getCol c
        = some (List.replicate sourceDf.nrows (some "")) := by
      rw [getCol_run_field_strategies_ne llm sourceDf fieldStrategies _ c hun]
      exact getCol_filledFrame schemaCols sourceDf.nrows c hc
    have hcol2 : (run_field_strategies llm sourceDf fieldStrategies
        (filledFrame schemaCols sourceDf.nrows)).getCol c
        = some (List.replicate (run_field_strategies llm sourceDf fieldStrategies
            (filledFrame schemaCols sourceDf.nrows)).nrows (some "")) := by
      rw [nrows_run_field_strategies]
      exact hcol1
    exact getCell_of_getCol_replicate _ c i
      (getCol_run_quality_const qualityRules _ c hcol2) hi

/-- Witness for C6: a cold-start run with schema columns email and notes
where only email is mapped; notes is present and empty. -/
theorem claim_C6_append_completeness_witness :
    (execute_ingestion idOracle none srcDupEmail ["email", "notes"]
        [("email", replaceEmailStrategy)] none).colNames = ["email", "notes"]
    ∧ (execute_ingestion idOracle none srcDupEmail ["email", "notes"]
        [("email", replaceEmailStrategy)] none).getCell "notes" 0 = some "" := by
  have h := claim_C6_append_completeness idOracle none srcDupEmail ["email", "notes"]
    [("email", replaceEmailStrategy)] none rfl (by decide)
  exact ⟨h.1, h.2 "notes" (by decide) (by decide) 0 (by decide)⟩

/-- C8: rule evaluation is a total pure function that never executes the
rule text as code.  A transform rule selects, by substring matching only,
one of the whitelisted string operations of the stripped input — any
unrecognized rule (file I/O, imports, arbitrary code) falls through to the
safe identity on the stripped value — and a derive rule yields the empty
string, the fixed generic string, or the domain part of the first mapped
column's value; nothing else is reachable. -/
theorem claim_C8_restricted_eval_safety :
    (∀ rule : String, transformValue rule none = "")
    ∧ (∀ rule v : String,
        transformValue rule (some v)
          ∈ [titleCase (pyStrip v), pyUpper (pyStrip v), pyLower (pyStrip v),
             phoneFmt (pyStrip v), pyStrip v])
    ∧ (∀ rule v : String,
        substrIn "title_case" (pyLower rule) = false →
        substrIn "upper" (pyLower rule) = false →
        substrIn "lower" (pyLower rule) = false →
        substrIn "phone_format" (pyLower rule) = false →
        transformValue rule (some v) = pyStrip v)
    ∧ (∀ (source : DataFrame) (srcMap : List String) (rule : String) (idx : Nat),
        deriveValue source srcMap rule idx = ""
        ∨ deriveValue source srcMap rule idx = "Derived from " ++ pyListRepr srcMap
        ∨ ∃ scol rest v, srcMap = scol :: rest ∧ source.getCell scol idx = some v
            ∧ deriveValue source srcMap rule idx
                = String.mk ((splitOnChar '@' v.toList).getLastD [])) := by
  refine ⟨fun rule => rfl, ?_, ?_, ?_⟩
  · intro rule v
    show (if substrIn "title_case" (pyLower rule) then titleCase (pyStrip v)
      else if substrIn "upper" (pyLower rule) then pyUpper (pyStrip v)
      else if substrIn "lower" (pyLower rule) then pyLower (pyStrip v)
      else if substrIn "phone_format" (pyLower rule) then phoneFmt (pyStrip v)
      else pyStrip v) ∈ _
    by_cases h1 : substrIn "title_case" (pyLower rule)
    · rw [if_pos h1]
      simp
    · rw [if_neg h1]
      by_cases h2 : substrIn "upper" (pyLower rule)
      · rw [if_pos h2]
        simp
      · rw [if_neg h2]
        by_cases h3 : substrIn "lower" (pyLower rule)
        · rw [if_pos h3]
          simp
        · rw [if_neg h3]
          by_cases h4 : substrIn "phone_format" (pyLower rule)
          · rw [if_pos h4]
            simp
          · rw [if_neg h4]
            simp
  · intro rule v h1 h2 h3 h4
    show (if substrIn "title_case" (pyLower rule) then titleCase (pyStrip v)
      else if substrIn "upper" (pyLower rule) then pyUpper (pyStrip v)
      else if substrIn "lower" (pyLower rule) then pyLower (pyStrip v)
      else if substrIn "phone_format" (pyLower rule) then phoneFmt (pyStrip v)
      else pyStrip v) = pyStrip v
    rw [if_neg (by simp [h1]), if_neg (by simp [h2]), if_neg (by simp [h3]),
      if_neg (by simp [h4])]
  · intro source srcMap rule idx
    unfold deriveValue
    split
    · split
      · exact Or.inl rfl
      · rename_i scol tail
        split
        · split
          · exact Or.inl rfl
          · rename_i v hg
            split
            · exact Or.inr (Or.inr ⟨scol, tail, v, rfl, hg, rfl⟩)
            · exact Or.inl rfl
        · exact Or.inl rfl
    · exact Or.inr (Or.inl rfl)

/-- Witness for C8: a rule naming a disallowed operation leaves the value
untouched (stripped) instead of being executed. -/
theorem claim_C8_restricted_eval_safety_witness :
    transformValue "import os" (some " x ") = "x" := by
  have h := claim_C8_restricted_eval_safety
  exact h.2.2.1 "import os" " x " (by decide) (by decide) (by decide) (by decide)

/-- C1 (modelled from the spec, as the Entity Matcher implementation is
absent from the available sources): a target row's match score is the sum
of `identity_indication` over exactly the entity columns whose (present,
non-empty — the spec's resolution of its empty-value question) transformed
source value equals the row's value; a source row is merged into an
existing row if and only if some existing row's score reaches the 1.0
threshold — equivalently the best score does — and otherwise the row is
appended as a new entity. -/
theorem claim_C1_match_score_threshold (schema : List SchemaColumn)
    (dm : String → String → String → String) (src : ERow) (rows : List ERow) :
    (∀ tgt : ERow, matchScore schema src tgt
        = ((schema.filter fun col => col.is_entity_identifier && entityHit col src tgt).map
            SchemaColumn.identity_indication).sum)
    ∧ ((ingestRow schema dm src rows).length = rows.length
        ↔ ∃ r ∈ rows, matchThreshold ≤ matchScore schema src r)
    ∧ ((¬ ∃ r ∈ rows, matchThreshold ≤ matchScore schema src r) →
        ingestRow schema dm src rows = rows ++ [newEntityRow schema dm src]) := by
  refine ⟨fun tgt => matchScore_eq_filter_sum schema src tgt, ?_, ?_⟩
  · rw [ingestRow_eq]
    cases hb : bestMatch schema src rows with
    | none =>
      have hrows : rows = [] := (bestMatch_none_iff schema src rows).1 hb
      subst hrows
      simp
    | some pr =>
      rcases pr with ⟨i, sc⟩
      have hmax := bestMatch_max schema src rows i sc hb
      show (if matchThreshold ≤ sc then updateAt (mergeRowModel schema dm src) i rows
          else rows ++ [newEntityRow schema dm src]).length = rows.length
        ↔ ∃ r ∈ rows, matchThreshold ≤ matchScore schema src r
      by_cases hth : matchThreshold ≤ sc
      · rw [if_pos hth]
        refine iff_of_true (length_updateAt (mergeRowModel schema dm src) i rows) ?_
        rcases List.mem_map.1 hmax.1 with ⟨r, hr, hsc⟩
        exact ⟨r, hr, by rw [hsc]; exact hth⟩
      · rw [if_neg hth]
        refine iff_of_false ?_ ?_
        · simp only [List.length_append, List.length_singleton]
          omega
        · rintro ⟨r, hr, hthr⟩
          exact hth (le_trans hthr (hmax.2 _ (List.mem_map_of_mem _ hr)))
  · intro hno
    rw [ingestRow_eq]
    cases hb : bestMatch schema src rows with
    | none => rfl
    | some pr =>
      rcases pr with ⟨i, sc⟩
      have hmax := bestMatch_max schema src rows i sc hb
      have hth : ¬ matchThreshold ≤ sc := by
        intro hth
        rcases List.mem_map.1 hmax.1 with ⟨r, hr, hsc⟩
        exact hno ⟨r, hr, by rw [hsc]; exact hth⟩
      show (if matchThreshold ≤ sc then updateAt (mergeRowModel schema dm src) i rows
          else rows ++ [newEntityRow schema dm src])
        = rows ++ [newEntityRow schema dm src]
      rw [if_neg hth]

/-- Witness for C1 at the spec's weighted example (weights 0.6 and 0.5): a
source row matching both entity columns merges (row count unchanged), one
matching only the 0.6 column is appended as a new row. -/
theorem claim_C1_match_score_threshold_witness :
    (ingestRow schemaWeighted concatMergeRule [("a", "x"), ("b", "y")]
        [[("a", "x"), ("b", "y")]]).length = 1
    ∧ (ingestRow schemaWeighted concatMergeRule [("a", "x"), ("b", "z")]
        [[("a", "x"), ("b", "y")]]).length = 2 := by
  constructor
  · have h := (claim_C1_match_score_threshold schemaWeighted concatMergeRule
      [("a", "x"), ("b", "y")] [[("a", "x"), ("b", "y")]]).2.1
    have hm : ∃ r ∈ [[("a", "x"), ("b", "y")]],
        matchThreshold ≤ matchScore schemaWeighted [("a", "x"), ("b", "y")] r := by
      refine ⟨[("a", "x"), ("b", "y")], by simp, ?_⟩
      show matchThreshold ≤ matchScore schemaWeighted [("a", "x"), ("b", "y")]
        [("a", "x"), ("b", "y")]
      simp +decide [matchScore, scoreContrib, schemaWeighted, lookupCol, matchThreshold]
      norm_num
    exact (h.mpr hm).trans rfl
  · have h := (claim_C1_match_score_threshold schemaWeighted concatMergeRule
      [("a", "x"), ("b", "z")] [[("a", "x"), ("b", "y")]]).2.2
    have hno : ¬ ∃ r ∈ [[("a", "x"), ("b", "y")]],
        matchThreshold ≤ matchScore schemaWeighted [("a", "x"), ("b", "z")] r := by
      rintro ⟨r, hr, hle⟩
      simp only [List.mem_singleton] at hr
      subst hr
      revert hle
      simp +decide [matchScore, scoreContrib, schemaWeighted, lookupCol, matchThreshold]
      norm_num
    rw [h hno]
    rfl

/-- C2 (modelled from the spec, as the Row Merger implementation is absent
from the available sources): in a merge, an entity column of a target row
that already holds a non-empty value is left unchanged whatever value the
source row carries, and an empty entity value is set to the transformed
source value. -/
theorem claim_C2_entity_fill_only (schema : List SchemaColumn)
    (dm : String → String → String → String) (src tgt : ERow)
    (i : Nat) (c v : String) (col : SchemaColumn)
    (hcol : (schema.filter fun cl => cl.name = c).head? = some col)
    (hent : col.is_entity_identifier = true)
    (hrow : tgt[i]? = some (c, v)) :
    (v ≠ "" → (mergeRowModel schema dm src tgt)[i]? = some (c, v))
    ∧ (v = "" → (mergeRowModel schema dm src tgt)[i]?
        = some (c, (lookupCol src c).getD "")) := by
  constructor
  · intro hv
    unfold mergeRowModel
    rw [List.getElem?_map, hrow, Option.map_some']
    simp only [hcol, hent, if_true]
    rw [if_neg hv]
  · intro hv
    subst hv
    unfold mergeRowModel
    rw [List.getElem?_map, hrow, Option.map_some']
    simp only [hcol, hent, if_true]

/-- Witness for C2: a populated entity value survives a merge with a
different source value, and an empty entity value is filled. -/
theorem claim_C2_entity_fill_only_witness :
    (mergeRowModel schemaWeighted concatMergeRule [("a", "DIFFERENT"), ("b", "w")]
        [("a", "x"), ("b", "")])[0]? = some ("a", "x")
    ∧ (mergeRowModel schemaWeighted concatMergeRule [("a", "DIFFERENT"), ("b", "w")]
        [("a", "x"), ("b", "")])[1]? = some ("b", "w") := by
  constructor
  · exact (claim_C2_entity_fill_only schemaWeighted concatMergeRule
      [("a", "DIFFERENT"), ("b", "w")] [("a", "x"), ("b", "")] 0 "a" "x"
      { name := "a", is_entity_identifier := true, identity_indication := 3 / 5 }
      rfl rfl rfl).1 (by decide)
  · exact (claim_C2_entity_fill_only schemaWeighted concatMergeRule
      [("a", "DIFFERENT"), ("b", "w")] [("a", "x"), ("b", "")] 1 "b" ""
      { name := "b", is_entity_identifier := true, identity_indication := 1 / 2 }
      rfl rfl rfl).2 rfl

end Intabular
